import Mathlib

/-!
Shallow embedding of the Borderlands 4 save-file codec
(`src/utils/saveDecryptor.ts`).

Byte buffers (`Uint8Array`) are modelled as `List Nat` with values below 256.
JavaScript strings are modelled as `List Nat` of UTF-16 code units
(each below 65536), matching `charCodeAt` semantics.

The external primitives (CryptoJS AES-ECB via `window.CryptoJS`, zlib via
`window.pako`, and the platform `TextEncoder`/`TextDecoder`) are treated as
follows: cipher and compression are oracle parameters of the pipelines,
exactly as the spec describes them at their interface boundary; the UTF-8
text codec is implemented here following the WHATWG encoding standard.
-/

namespace SaveCodec

/-- The fixed 32-byte base key `BASE_KEY` from the source. -/
def BASE_KEY : List Nat :=
  [0x35, 0xec, 0x33, 0x77, 0xf3, 0x5d, 0xb0, 0xea, 0xbe, 0x6b, 0x83, 0x11, 0x54, 0x03, 0xeb, 0xfb,
   0x27, 0x25, 0x64, 0x2e, 0xd5, 0x49, 0x06, 0x29, 0x05, 0x78, 0xbd, 0x60, 0xba, 0x4a, 0xa7, 0x87]

/-- Source `utf16leBytes`: for each UTF-16 code unit push `code & 0xff` then
`(code >> 8) & 0xff`. -/
def utf16leBytes (str : List Nat) : List Nat :=
  str.foldr (fun code acc => code % 256 :: code / 256 % 256 :: acc) []

/-- The regex test `/^\d{17,}$/.test(userID)`: seventeen or more ASCII
digits and nothing else. -/
def steamMatch (userID : List Nat) : Bool :=
  17 ≤ userID.length && userID.all (fun c => 0x30 ≤ c && c ≤ 0x39)

/-- Source `BigInt(userID)` on an all-digit string: decimal value, arbitrary
precision. -/
def digitsToNat (userID : List Nat) : Nat :=
  userID.foldl (fun acc c => acc * 10 + (c - 0x30)) 0

/-- The Steam branch of `deriveKey`: eight iterations of
`push(Number(sid & 0xffn)); sid >>= 8n`, i.e. the 8-byte little-endian
representation of the low 64 bits. -/
def steamBytes (sid : Nat) : List Nat :=
  (List.range 8).map (fun i => sid / 256 ^ i % 256)

/-- The `uid_bytes` computed inside `deriveKey`: Steam path for
`/^\d{17,}$/`, Epic (UTF-16LE) path otherwise. -/
def uidBytes (userID : List Nat) : List Nat :=
  if steamMatch userID then steamBytes (digitsToNat userID) else utf16leBytes userID

/-- Source `deriveKey`: copy `BASE_KEY`, then `k[i] ^= uid_bytes[i]` for
`i < min(k.length, uid_bytes.length)` (and `k.length = 32`). -/
def deriveKey (userID : List Nat) : List Nat :=
  let uid := uidBytes userID
  (List.range 32).map (fun i =>
    if i < uid.length then BASE_KEY.getD i 0 ^^^ uid.getD i 0 else BASE_KEY.getD i 0)

/-- JavaScript indexed read `buf[i]` with a possibly negative index:
`undefined` (here `none`) when out of range. -/
def jsGet (buf : List Nat) (i : Int) : Option Nat :=
  if 0 ≤ i then buf[i.toNat]? else none

/-- The validation loop of `pkcs7Unpad`: for `i = 1 .. pad`,
`buf[buf.length - i] !== pad` fails the check (an out-of-range read yields
`undefined`, which never equals `pad`). -/
def padLoopOk (buf : List Nat) (pad : Nat) : Bool :=
  (List.range pad).all (fun j => jsGet buf ((buf.length : Int) - (j + 1)) == some pad)

/-- Source `pkcs7Unpad` together with its warning signal (the `console.warn` on a
mismatched pad).  On an empty buffer `buf[buf.length - 1]` is `undefined`,
the loop body never runs, and `new Uint8Array(buf.length - undefined)` is
`new Uint8Array(NaN)`, i.e. empty — no warning. -/
def pkcs7UnpadW (buf : List Nat) : List Nat × Bool :=
  match buf.getLast? with
  | none => ([], false)
  | some pad =>
    if padLoopOk buf pad then (buf.take (buf.length - pad), false)
    else (buf, true)

/-- Source `pkcs7Unpad`: the returned buffer, warning signal dropped. -/
def pkcs7Unpad (buf : List Nat) : List Nat :=
  (pkcs7UnpadW buf).1

/-- Source `pkcs7Pad`: append `pad = blockSize - (buf.length % blockSize)` bytes,
each equal to `pad`. -/
def pkcs7Pad (buf : List Nat) (blockSize : Nat) : List Nat :=
  let pad := blockSize - buf.length % blockSize
  buf ++ List.replicate pad pad

/-- Source `adler32` from `encryptSave`: fold `a = (a + x) % 65521;
b = (b + a) % 65521` over the buffer starting from `(1, 0)`, result
`((b << 16) | a) >>> 0`. -/
def adler32 (buf : List Nat) : Nat :=
  let ab := buf.foldl (fun ab x =>
    let a := (ab.1 + x) % 65521
    (a, (ab.2 + a) % 65521)) (1, 0)
  (ab.2 <<< 16 ||| ab.1) % 4294967296

/-- Four-byte little-endian serialisation used for the trailer:
`x & 0xff, (x >> 8) & 0xff, (x >> 16) & 0xff, (x >> 24) & 0xff` (JavaScript
shifts act on the value modulo 2^32). -/
def le32 (x : Nat) : List Nat :=
  let m := x % 4294967296
  [m % 256, m / 256 % 256, m / 65536 % 256, m / 16777216 % 256]

/-- UTF-16 code units to Unicode code points (pairing surrogates, lone
surrogates become U+FFFD), as `TextEncoder` does before UTF-8 encoding.
The `fuel` argument only drives structural recursion; it is always called
with fuel at least the length of the list, so the `fuel = 0` branch with a
nonempty list is unreachable. -/
def utf16ToCodePointsAux : Nat → List Nat → List Nat
  | 0, _ => []
  | _, [] => []
  | fuel + 1, u :: rest =>
    if 0xD800 ≤ u && u < 0xDC00 then
      match rest with
      | [] => [0xFFFD]
      | v :: rest2 =>
        if 0xDC00 ≤ v && v < 0xE000 then
          (0x10000 + (u - 0xD800) * 1024 + (v - 0xDC00)) :: utf16ToCodePointsAux fuel rest2
        else 0xFFFD :: utf16ToCodePointsAux fuel rest
    else if 0xDC00 ≤ u && u < 0xE000 then 0xFFFD :: utf16ToCodePointsAux fuel rest
    else u :: utf16ToCodePointsAux fuel rest

/-- UTF-16 code units to Unicode code points, fuel instantiated. -/
def utf16ToCodePoints (str : List Nat) : List Nat :=
  utf16ToCodePointsAux str.length str

/-- UTF-8 encoding of one Unicode code point (1–4 bytes). -/
def utf8EncodeCP (cp : Nat) : List Nat :=
  if cp < 0x80 then [cp]
  else if cp < 0x800 then [0xC0 + cp / 64, 0x80 + cp % 64]
  else if cp < 0x10000 then [0xE0 + cp / 4096, 0x80 + cp / 64 % 64, 0x80 + cp % 64]
  else [0xF0 + cp / 262144, 0x80 + cp / 4096 % 64, 0x80 + cp / 64 % 64, 0x80 + cp % 64]

/-- Platform `new TextEncoder().encode(str)`: UTF-8 bytes of a JS string (a list of
UTF-16 code units). -/
def utf8EncodeStr (str : List Nat) : List Nat :=
  ((utf16ToCodePoints str).map utf8EncodeCP).flatten

/-- One decoded code point as UTF-16 code units (surrogate pair above the
BMP), as `TextDecoder` produces a JS string. -/
def cpToUtf16 (cp : Nat) : List Nat :=
  if cp < 0x10000 then [cp]
  else [0xD800 + (cp - 0x10000) / 1024, 0xDC00 + (cp - 0x10000) % 1024]

/-- Is `c` a UTF-8 continuation byte in the range allowed after lead `b`
(WHATWG lower/upper bound special cases for 0xE0/0xED/0xF0/0xF4)? -/
def utf8ContOk (b c : Nat) : Bool :=
  let lo := if b = 0xE0 then 0xA0 else if b = 0xF0 then 0x90 else 0x80
  let hi := if b = 0xED then 0x9F else if b = 0xF4 then 0x8F else 0xBF
  lo ≤ c && c ≤ hi

/-- Platform `new TextDecoder().decode(bytes)`: UTF-8 decoding with U+FFFD
replacement on malformed input, returning UTF-16 code units.  As above,
`fuel` only drives structural recursion and is always at least the length
of the remaining input. -/
def utf8DecodeAux : Nat → List Nat → List Nat
  | 0, _ => []
  | _, [] => []
  | fuel + 1, b :: rest =>
    if b < 0x80 then b :: utf8DecodeAux fuel rest
    else if b < 0xC2 then 0xFFFD :: utf8DecodeAux fuel rest
    else if b < 0xE0 then
      match rest with
      | [] => [0xFFFD]
      | c :: r2 =>
        if utf8ContOk b c then ((b - 0xC0) * 64 + (c - 0x80)) :: utf8DecodeAux fuel r2
        else 0xFFFD :: utf8DecodeAux fuel rest
    else if b < 0xF0 then
      match rest with
      | [] => [0xFFFD]
      | c :: r2 =>
        if utf8ContOk b c then
          match r2 with
          | [] => [0xFFFD]
          | d :: r3 =>
            if 0x80 ≤ d && d ≤ 0xBF then
              ((b - 0xE0) * 4096 + (c - 0x80) * 64 + (d - 0x80)) :: utf8DecodeAux fuel r3
            else 0xFFFD :: utf8DecodeAux fuel r2
        else 0xFFFD :: utf8DecodeAux fuel rest
    else if b < 0xF5 then
      match rest with
      | [] => [0xFFFD]
      | c :: r2 =>
        if utf8ContOk b c then
          match r2 with
          | [] => [0xFFFD]
          | d :: r3 =>
            if 0x80 ≤ d && d ≤ 0xBF then
              match r3 with
              | [] => [0xFFFD]
              | e :: r4 =>
                if 0x80 ≤ e && e ≤ 0xBF then
                  cpToUtf16 ((b - 0xF0) * 262144 + (c - 0x80) * 4096 +
                    (d - 0x80) * 64 + (e - 0x80)) ++ utf8DecodeAux fuel r4
                else 0xFFFD :: utf8DecodeAux fuel r3
            else 0xFFFD :: utf8DecodeAux fuel r2
        else 0xFFFD :: utf8DecodeAux fuel rest
    else 0xFFFD :: utf8DecodeAux fuel rest

/-- UTF-8 decoding, fuel instantiated. -/
def utf8Decode (bytes : List Nat) : List Nat :=
  utf8DecodeAux bytes.length bytes

/-- The errors raised by the pipelines (`throw new Error(...)` sites that
the model can reach; the primitives themselves are oracle parameters, so
the `Required libraries not loaded` site is always passed). -/
inductive DecErr where
  | missingIdentity
  | decompressFailure
deriving DecidableEq, Repr

/-- The user-facing message of each error site in the source. -/
def errMessage : DecErr → String
  | .missingIdentity => "Please enter platform user ID (Steam or Epic)"
  | .decompressFailure => "Zlib decompress failed. Wrong user ID or file format?"

/-- Source `trimmed.set(pt.subarray(0, n))` on a fresh `Uint8Array(n)`: truncate
to `n` bytes, zero-extending when the input is shorter. -/
def jsTrunc (b : List Nat) (n : Nat) : List Nat :=
  b.take n ++ List.replicate (n - b.length) 0

/-- One iteration of the trim loop in `decryptSave`: for a given `trim`,
`new Uint8Array(pt.length - trim)` throws (caught by the loop) when the
length is negative; an empty candidate or one whose first byte is not
`0x78` is skipped; otherwise the candidate is inflated, a failure being
caught by the loop. -/
def tryTrim (inflate : List Nat → Option (List Nat)) (pt : List Nat) (trim : Nat) :
    Option (List Nat) :=
  if pt.length < trim then none
  else
    let candidate := pt.take (pt.length - trim)
    if candidate.head? == some 0x78 then inflate candidate else none

/-- The trim loop of `decryptSave` over the ordered candidate list
(`trimOptions = [4, 8]` at the call site), returning the inflated bytes
and the trim used by the first successful candidate. -/
def trimLoop (inflate : List Nat → Option (List Nat)) (pt : List Nat) :
    List Nat → Option (List Nat × Nat)
  | [] => none
  | trim :: rest =>
    match tryTrim inflate pt trim with
    | some r => some (r, trim)
    | none => trimLoop inflate pt rest

/-- The trim loop instrumented with the list of buffers actually passed to
the external `pako.inflate`; its first component agrees with `trimLoop`. -/
def trimLoopTr (inflate : List Nat → Option (List Nat)) (pt : List Nat) :
    List Nat → Option (List Nat × Nat) × List (List Nat)
  | [] => (none, [])
  | trim :: rest =>
    if pt.length < trim then trimLoopTr inflate pt rest
    else
      let candidate := pt.take (pt.length - trim)
      if candidate.head? == some 0x78 then
        match inflate candidate with
        | some r => (some (r, trim), [candidate])
        | none =>
          let p := trimLoopTr inflate pt rest
          (p.1, candidate :: p.2)
      else trimLoopTr inflate pt rest

/-- The plaintext `pt` reaching the trim loop in `decryptSave`: decrypt,
truncate to the ciphertext length, PKCS7-unpad. -/
def decodePt (decryptECB : List Nat → List Nat → List Nat)
    (file userID : List Nat) : List Nat :=
  pkcs7Unpad (jsTrunc (decryptECB (deriveKey userID) file) file.length)

/-- Source `decryptSave` over the external primitives: reject an empty identity,
derive the key, AES-ECB decrypt, truncate to the input length, unpad, run
the trim loop over `[4, 8]`, and UTF-8-decode the inflated bytes. -/
def decryptSave (decryptECB : List Nat → List Nat → List Nat)
    (inflate : List Nat → Option (List Nat))
    (file userID : List Nat) : Except DecErr (List Nat) :=
  if userID = [] then .error .missingIdentity
  else
    match trimLoop inflate (decodePt decryptECB file userID) [4, 8] with
    | some (inflated, _) => .ok (utf8Decode inflated)
    | none => .error .decompressFailure

/-- Source `encryptSave` over the external primitives: reject an empty identity,
UTF-8-encode, deflate at level 9, append `le32(adler32(uncompressed))` and
`le32(uncompressed.length)`, PKCS7-pad to 16, AES-ECB encrypt. -/
def encryptSave (encryptECB : List Nat → List Nat → List Nat)
    (deflate : List Nat → Nat → List Nat)
    (yamlContent userID : List Nat) : Except DecErr (List Nat) :=
  if userID = [] then .error .missingIdentity
  else
    let yamlBytes := utf8EncodeStr yamlContent
    let comp := deflate yamlBytes 9
    let packed := comp ++ le32 (adler32 yamlBytes) ++ le32 yamlBytes.length
    let pt_padded := pkcs7Pad packed 16
    .ok (encryptECB (deriveKey userID) pt_padded)

/-- UTF-16 code units of a Lean string literal (used only for the concrete
test vectors; all characters involved are in the BMP). -/
def strCodeUnits (s : String) : List Nat :=
  s.data.map Char.toNat

/-- The reference two-accumulator recursion, written from the spec's words:
`a` initialized to 1, `b` to 0; for each byte `x`, `a = (a + x) mod 65521`
then `b = (b + a) mod 65521`. -/
def adlerPair : List Nat → Nat × Nat → Nat × Nat
  | [], ab => ab
  | x :: xs, ab => adlerPair xs ((ab.1 + x) % 65521, (ab.2 + (ab.1 + x) % 65521) % 65521)

/-- The reference Adler-32 of §4.3 of the spec: run the recursion and
combine the accumulators as `b` in the high 16 bits and `a` in the low 16
bits of an unsigned 32-bit value. -/
def adler32Spec (buf : List Nat) : Nat :=
  (adlerPair buf (1, 0)).2 * 65536 + (adlerPair buf (1, 0)).1

/-- The first 32 bytes of an identity's raw byte encoding, zero-extended:
the part of the encoding that can influence the derived key. -/
def pad32 (l : List Nat) : List Nat :=
  (List.range 32).map (fun i => l.getD i 0)

/-! ## Concrete oracles used to witness the oracle-parametric claims -/

/-- A cipher oracle that returns its input: trivially length-preserving and
self-inverse. -/
def idCipher : List Nat → List Nat → List Nat := fun _ b => b

/-- A compression oracle for witnesses: a `0x78` header, the payload length
as 4 little-endian bytes, then the payload verbatim. -/
def vecDeflate (b : List Nat) (_lvl : Nat) : List Nat :=
  0x78 :: (le32 b.length ++ b)

/-- The matching decompression oracle: checks the header, reads the length,
returns that many payload bytes (tolerating trailing garbage), and fails
otherwise. -/
def vecInflate : List Nat → Option (List Nat)
  | b :: n0 :: n1 :: n2 :: n3 :: payload =>
    if b = 0x78 then
      let n := n0 + n1 * 256 + n2 * 65536 + n3 * 16777216
      if n ≤ payload.length then some (payload.take n) else none
    else none
  | _ => none

/-- An inflate oracle accepting exactly the buffer `[0x78]`. -/
def probeInflate : List Nat → Option (List Nat) :=
  fun b => if b = [0x78] then some [42] else none

/-- An inflate oracle that always fails. -/
def failInflate : List Nat → Option (List Nat) := fun _ => none

/-- A trim candidate succeeds when it starts with the zlib magic byte and
the inflate oracle accepts it. -/
def candidateHit (inflate : List Nat → Option (List Nat)) (pt : List Nat) (trim : Nat) :
    Prop :=
  (pt.take (pt.length - trim)).head? = some 0x78 ∧
    (inflate (pt.take (pt.length - trim))).isSome

/-- The sample text `"hello: world\n"` of the round-trip vector. -/
def c1Text : List Nat := strCodeUnits "hello: world\n"

/-- The sample Steam identity `"76561198012345678"`. -/
def c1Id : List Nat := strCodeUnits "76561198012345678"

/-- The UTF-8 bytes of the sample text. -/
def c1U : List Nat := utf8EncodeStr c1Text

/-- The round-trip conclusion, parametric in the four external
primitives: encode produces the encryption of the padded container, decode
returns the original text, and the buffer passed to the cipher — once
unpadded — ends in `le32(adler32(utf8(text))) ++ le32(len(utf8(text)))`. -/
def c1Conclusion (encryptECB decryptECB : List Nat → List Nat → List Nat)
    (deflate : List Nat → Nat → List Nat)
    (inflate : List Nat → Option (List Nat)) : Prop :=
  encryptSave encryptECB deflate c1Text c1Id =
    .ok (encryptECB (deriveKey c1Id)
      (pkcs7Pad (deflate c1U 9 ++ le32 (adler32 c1U) ++ le32 c1U.length) 16)) ∧
  decryptSave decryptECB inflate
    (encryptECB (deriveKey c1Id)
      (pkcs7Pad (deflate c1U 9 ++ le32 (adler32 c1U) ++ le32 c1U.length) 16)) c1Id
    = .ok c1Text ∧
  (pkcs7Unpad (pkcs7Pad (deflate c1U 9 ++ le32 (adler32 c1U) ++ le32 c1U.length) 16)).drop
      ((pkcs7Unpad (pkcs7Pad (deflate c1U 9 ++ le32 (adler32 c1U) ++ le32 c1U.length) 16)).length - 8)
    = le32 (adler32 c1U) ++ le32 c1U.length

/-! ## Helper lemmas -/

lemma length_pkcs7Pad (buf : List Nat) :
    (pkcs7Pad buf 16).length = buf.length + (16 - buf.length % 16) := by
  simp [pkcs7Pad]

/-- The `pkcs7Unpad` validation loop succeeds exactly when the declared pad
fits in the buffer and the final `p` bytes all equal `p`. -/
lemma padLoopOk_iff (buf : List Nat) (p : Nat) :
    padLoopOk buf p = true ↔
      p ≤ buf.length ∧ buf.drop (buf.length - p) = List.replicate p p := by
  unfold padLoopOk
  rw [List.all_eq_true]
  constructor
  · intro H
    have hple : p ≤ buf.length := by
      rcases Nat.eq_zero_or_pos p with h0 | hpos
      · omega
      · have := H (p - 1) (by simp [List.mem_range]; omega)
        rw [beq_iff_eq] at this
        unfold jsGet at this
        by_contra hlt
        rw [if_neg (by omega)] at this
        exact Option.noConfusion this
    refine ⟨hple, ?_⟩
    apply List.ext_getElem
    · simp; omega
    · intro i h1 h2
      have hip : i < p := by simpa using h2
      have := H (p - 1 - i) (by simp [List.mem_range]; omega)
      rw [beq_iff_eq] at this
      unfold jsGet at this
      rw [if_pos (by omega)] at this
      have htn : ((buf.length : Int) - (↑(p - 1 - i) + 1)).toNat = buf.length - p + i := by
        omega
      rw [htn] at this
      rw [List.getElem_drop, List.getElem_replicate]
      have hidx : buf.length - p + i < buf.length := by omega
      rw [List.getElem?_eq_getElem hidx] at this
      exact Option.some.inj this
  · rintro ⟨hple, hdrop⟩ j hj
    rw [List.mem_range] at hj
    rw [beq_iff_eq]
    unfold jsGet
    rw [if_pos (by omega)]
    have htn : ((buf.length : Int) - (↑j + 1)).toNat = (buf.length - p) + (p - 1 - j) := by
      omega
    rw [htn, ← List.getElem?_drop, hdrop, List.getElem?_replicate, if_pos (by omega)]

/-- Unpadding a freshly padded buffer recovers it, with no warning. -/
lemma pkcs7UnpadW_pad (buf : List Nat) :
    pkcs7UnpadW (pkcs7Pad buf 16) = (buf, false) := by
  have hp1 : 1 ≤ 16 - buf.length % 16 := by
    have := Nat.mod_lt buf.length (show 0 < 16 by norm_num)
    omega
  set p := 16 - buf.length % 16 with hp
  have hrep : List.replicate p p ≠ [] := by
    simp [List.replicate_eq_nil_iff]
    omega
  have hlast : (pkcs7Pad buf 16).getLast? = some p := by
    unfold pkcs7Pad
    rw [List.getLast?_append_of_ne_nil _ hrep]
    have : p = p - 1 + 1 := by omega
    rw [this, List.replicate_succ']
    simp
  have hok : padLoopOk (pkcs7Pad buf 16) p = true := by
    rw [padLoopOk_iff]
    constructor
    · simp [pkcs7Pad]
    · have hlen : (pkcs7Pad buf 16).length - p = buf.length := by
        simp [pkcs7Pad]
      rw [hlen]
      unfold pkcs7Pad
      rw [← hp]
      exact List.drop_left buf (List.replicate p p)
  unfold pkcs7UnpadW
  rw [hlast]
  simp only [hok, if_true]
  have hlen : (pkcs7Pad buf 16).length - p = buf.length := by
    simp [pkcs7Pad]
  rw [hlen]
  unfold pkcs7Pad
  rw [← hp]
  exact congrArg (fun l => (l, false)) (List.take_left buf (List.replicate p p))

lemma pkcs7Unpad_pad (buf : List Nat) :
    pkcs7Unpad (pkcs7Pad buf 16) = buf := by
  rw [pkcs7Unpad, pkcs7UnpadW_pad]

/-! ## The reference Adler-32 of the spec -/


lemma lor_shiftLeft_eq_add (b a : Nat) (ha : a < 65536) :
    b <<< 16 ||| a = b * 65536 + a := by
  have h65536 : (65536 : Nat) = 2 ^ 16 := by norm_num
  apply Nat.eq_of_testBit_eq
  intro i
  rw [Nat.testBit_lor, Nat.testBit_shiftLeft]
  rcases Nat.lt_or_ge i 16 with hi | hi
  · rw [decide_eq_false (by omega)]
    simp only [Bool.false_and, Bool.false_or]
    rw [Nat.testBit_to_div_mod, Nat.testBit_to_div_mod]
    have hsplit : b * 65536 + a = 2 ^ i * (2 ^ (16 - i) * b) + a := by
      rw [h65536, ← Nat.mul_assoc, ← Nat.pow_add]
      have : i + (16 - i) = 16 := by omega
      rw [Nat.mul_comm (2 ^ (i + (16 - i))) b, this]
    rw [hsplit, Nat.mul_add_div (Nat.two_pow_pos i)]
    have heven : 2 ^ (16 - i) * b % 2 = 0 := by
      have h1 : 16 - i = (16 - i - 1) + 1 := by omega
      rw [Nat.mul_mod, h1, Nat.pow_succ]
      simp [Nat.mul_mod_left]
    generalize 2 ^ (16 - i) * b = e at heven
    generalize a / 2 ^ i = d
    rw [decide_eq_decide]
    omega
  · rw [decide_eq_true (by omega)]
    have hafalse : a.testBit i = false := by
      apply Nat.testBit_lt_two_pow
      exact lt_of_lt_of_le (h65536 ▸ ha) (Nat.pow_le_pow_right (by norm_num) hi)
    rw [hafalse, Bool.true_and, Bool.or_false]
    rw [Nat.testBit_to_div_mod, Nat.testBit_to_div_mod]
    have hpow : 2 ^ i = 65536 * 2 ^ (i - 16) := by
      rw [h65536, ← Nat.pow_add]
      congr 1
      omega
    rw [hpow, ← Nat.div_div_eq_div_mul]
    have hdiv : (b * 65536 + a) / 65536 = b := by
      rw [Nat.mul_comm b 65536, Nat.mul_add_div (by norm_num), Nat.div_eq_of_lt ha,
        Nat.add_zero]
    rw [hdiv]

lemma adler_foldl_eq_adlerPair (buf : List Nat) (ab : Nat × Nat) :
    buf.foldl (fun ab x =>
      let a := (ab.1 + x) % 65521
      (a, (ab.2 + a) % 65521)) ab = adlerPair buf ab := by
  induction buf generalizing ab with
  | nil => rfl
  | cons x xs ih => simp only [List.foldl_cons, adlerPair, ih]

lemma adlerPair_bounds (buf : List Nat) (ab : Nat × Nat)
    (ha : ab.1 < 65536) (hb : ab.2 < 65521) :
    (adlerPair buf ab).1 < 65536 ∧ (adlerPair buf ab).2 < 65521 := by
  induction buf generalizing ab with
  | nil => exact ⟨ha, hb⟩
  | cons x xs ih =>
    apply ih
    · exact lt_of_lt_of_le (Nat.mod_lt _ (by norm_num)) (by norm_num)
    · exact Nat.mod_lt _ (by norm_num)

lemma adler32_eq_spec (buf : List Nat) : adler32 buf = adler32Spec buf := by
  unfold adler32 adler32Spec
  rw [adler_foldl_eq_adlerPair]
  obtain ⟨ha, hb⟩ := adlerPair_bounds buf (1, 0) (by norm_num) (by norm_num)
  show ((adlerPair buf (1, 0)).2 <<< 16 ||| (adlerPair buf (1, 0)).1) % 4294967296 =
    (adlerPair buf (1, 0)).2 * 65536 + (adlerPair buf (1, 0)).1
  rw [lor_shiftLeft_eq_add _ _ ha]
  apply Nat.mod_eq_of_lt
  have : (adlerPair buf (1, 0)).2 * 65536 ≤ 65520 * 65536 := by
    apply Nat.mul_le_mul_right
    omega
  omega

/-! ## Key-derivation lemmas -/


lemma map_range32_getD (f : Nat → Nat) (i : Nat) (hi : i < 32) :
    ((List.range 32).map f).getD i 0 = f i := by
  rw [List.getD_eq_getElem?_getD, List.getElem?_map, List.getElem?_range hi]
  rfl

lemma deriveKey_getD (userID : List Nat) (i : Nat) (hi : i < 32) :
    (deriveKey userID).getD i 0 = BASE_KEY.getD i 0 ^^^ (uidBytes userID).getD i 0 := by
  unfold deriveKey
  rw [map_range32_getD _ _ hi]
  by_cases h : i < (uidBytes userID).length
  · rw [if_pos h]
  · rw [if_neg h]
    have h0 : (uidBytes userID).getD i 0 = 0 := List.getD_eq_default _ _ (by omega)
    rw [h0, Nat.xor_zero]

lemma deriveKey_length (userID : List Nat) : (deriveKey userID).length = 32 := by
  simp [deriveKey]

/-! ## Trim-loop lemmas -/

lemma trimLoopTr_fst (inflate : List Nat → Option (List Nat)) (pt : List Nat)
    (trims : List Nat) : (trimLoopTr inflate pt trims).1 = trimLoop inflate pt trims := by
  induction trims with
  | nil => rfl
  | cons trim rest ih =>
    by_cases h1 : pt.length < trim
    · simp [trimLoopTr, trimLoop, tryTrim, h1, ih]
    · by_cases h2 : (pt.take (pt.length - trim)).head? = some 0x78
      · cases hinf : inflate (pt.take (pt.length - trim)) with
        | some r => simp [trimLoopTr, trimLoop, tryTrim, h1, h2, hinf]
        | none => simp [trimLoopTr, trimLoop, tryTrim, h1, h2, hinf, ih]
      · simp [trimLoopTr, trimLoop, tryTrim, h1, h2, ih]

/-- Every buffer the trim loop passes to the external `inflate` starts with
the zlib magic byte. -/
lemma trimLoopTr_trace_magic (inflate : List Nat → Option (List Nat)) (pt : List Nat)
    (trims : List Nat) :
    ∀ b ∈ (trimLoopTr inflate pt trims).2, b.head? = some 0x78 := by
  induction trims with
  | nil => intro b hb; simp [trimLoopTr] at hb
  | cons trim rest ih =>
    intro b hb
    by_cases h1 : pt.length < trim
    · rw [trimLoopTr, if_pos h1] at hb
      exact ih b hb
    · by_cases h2 : (pt.take (pt.length - trim)).head? = some 0x78
      · cases hinf : inflate (pt.take (pt.length - trim)) with
        | some r =>
          rw [trimLoopTr, if_neg h1] at hb
          simp only [h2, hinf] at hb
          simp at hb
          rw [hb]
          exact h2
        | none =>
          rw [trimLoopTr, if_neg h1] at hb
          simp only [h2, hinf] at hb
          simp at hb
          rcases hb with hb | hb
          · rw [hb]; exact h2
          · exact ih b hb
      · rw [trimLoopTr, if_neg h1] at hb
        have hbeq : ((pt.take (pt.length - trim)).head? == some 0x78) = false := by
          simp [h2]
        simp only [hbeq, Bool.false_eq_true, if_false] at hb
        exact ih b hb

/-- One trim candidate fails exactly when it does not both start with the
magic byte and inflate successfully (a negative candidate length throws in
the source and is caught, which coincides with the empty clamped
candidate's missing magic byte). -/
lemma tryTrim_eq_none_iff (inflate : List Nat → Option (List Nat)) (pt : List Nat)
    (trim : Nat) :
    tryTrim inflate pt trim = none ↔
      ¬((pt.take (pt.length - trim)).head? = some 0x78 ∧
        (inflate (pt.take (pt.length - trim))).isSome) := by
  unfold tryTrim
  by_cases h1 : pt.length < trim
  · rw [if_pos h1]
    have h0 : pt.length - trim = 0 := by omega
    simp [h0]
  · rw [if_neg h1]
    by_cases h2 : (pt.take (pt.length - trim)).head? = some 0x78
    · simp [h2, Option.isSome_iff_ne_none]
    · simp [h2]

lemma trimLoop_eq_none_iff (inflate : List Nat → Option (List Nat)) (pt : List Nat)
    (trims : List Nat) :
    trimLoop inflate pt trims = none ↔
      ∀ trim ∈ trims, tryTrim inflate pt trim = none := by
  induction trims with
  | nil => simp [trimLoop]
  | cons trim rest ih =>
    rw [trimLoop]
    cases h : tryTrim inflate pt trim with
    | some r => simp [h]
    | none => simp [h, ih]

/-! ## The claims -/

/-- C3 (counterexample): the identities `"A"` and `"A\u0000"` (code units
`[65]` and `[65, 0]`) derive the same key, yet their raw UTF-16LE byte
encodings truncated to 32 bytes differ (`[65, 0]` vs `[65, 0, 0, 0]`). -/
theorem c3_counterexample :
    deriveKey [65] = deriveKey [65, 0] ∧
    (uidBytes [65]).take 32 ≠ (uidBytes [65, 0]).take 32 := by decide

/-- C3 (amended): if two identities derive the same key then their raw
byte encodings agree after truncation to 32 bytes AND zero-extension to 32
bytes — bytes past the end of the shorter encoding compare as zero, since
an explicit zero byte XORs the base key identically to an absent byte. -/
theorem c3_key_collision_amended (id1 id2 : List Nat)
    (h : deriveKey id1 = deriveKey id2) :
    pad32 (uidBytes id1) = pad32 (uidBytes id2) := by
  unfold pad32
  apply List.map_congr_left
  intro i hi
  rw [List.mem_range] at hi
  have h1 := congrArg (fun l => l.getD i 0) h
  simp only at h1
  rw [deriveKey_getD id1 i hi, deriveKey_getD id2 i hi] at h1
  have h2 := congrArg (fun z => BASE_KEY.getD i 0 ^^^ z) h1
  simp only [← Nat.xor_assoc, Nat.xor_self, Nat.zero_xor] at h2
  exact h2

/-- C3 witness: the amended statement at the concrete colliding pair. -/
theorem c3_key_collision_amended_witness :
    pad32 (uidBytes [65]) = pad32 (uidBytes [65, 0]) :=
  c3_key_collision_amended [65] [65, 0] (by decide)

/-- C4: `deriveKey` takes the Steam path exactly for strings of 17 or more
ASCII digits and nothing else (arbitrary-precision decimal parse, 8-byte
little-endian, silently wrapping past 64 bits), otherwise the Epic
UTF-16LE path; a 16-digit string is Epic, a 17-digit string is Steam. -/
theorem c4_classification :
    (∀ s : List Nat, steamMatch s = true ↔
      (17 ≤ s.length ∧ ∀ c ∈ s, 0x30 ≤ c ∧ c ≤ 0x39)) ∧
    (∀ s : List Nat, steamMatch s = true → uidBytes s = steamBytes (digitsToNat s)) ∧
    (∀ s : List Nat, steamMatch s = false → uidBytes s = utf16leBytes s) ∧
    (∀ sid : Nat, steamBytes sid = steamBytes (sid % 2 ^ 64)) ∧
    steamMatch (strCodeUnits "1234567890123456") = false ∧
    steamMatch (strCodeUnits "12345678901234567") = true := by
  refine ⟨?_, ?_, ?_, ?_, by decide, by decide⟩
  · intro s
    unfold steamMatch
    simp [Bool.and_eq_true, List.all_eq_true, decide_eq_true_eq]
  · intro s hs
    unfold uidBytes
    rw [if_pos hs]
  · intro s hs
    unfold uidBytes
    rw [hs]
    simp
  · intro sid
    unfold steamBytes
    apply List.map_congr_left
    intro i hi
    rw [List.mem_range] at hi
    rw [← Nat.mod_mul_right_div_self, ← Nat.mod_mul_right_div_self]
    congr 1
    have hdvd : (256 : Nat) ^ i * 256 ∣ 2 ^ 64 := by
      have h256 : (256 : Nat) = 2 ^ 8 := by norm_num
      rw [h256, ← pow_succ, ← pow_mul]
      exact pow_dvd_pow 2 (by omega)
    exact (Nat.mod_mod_of_dvd sid hdvd).symm

/-- C4 witness: the classification applied at the two boundary examples. -/
theorem c4_classification_witness :
    uidBytes (strCodeUnits "1234567890123456") = utf16leBytes (strCodeUnits "1234567890123456") ∧
    uidBytes (strCodeUnits "12345678901234567") =
      steamBytes (digitsToNat (strCodeUnits "12345678901234567")) :=
  ⟨c4_classification.2.2.1 _ (by decide), c4_classification.2.1 _ (by decide)⟩

/-- C5 (counterexample): `deriveKey` applied to the empty string does not
fail — it returns the 32-byte base key unchanged. -/
theorem c5_counterexample :
    deriveKey [] = BASE_KEY ∧ (deriveKey []).length = 32 := by decide

/-- C5 (amended): `deriveKey ""` returns the base key; the empty-identity
rejection is raised by the `decryptSave`/`encryptSave` entry points before
any key is derived, with the user-ID error message. -/
theorem c5_empty_identity_amended :
    deriveKey [] = BASE_KEY ∧
    (∀ dec inf (file : List Nat), decryptSave dec inf file [] = .error .missingIdentity) ∧
    (∀ enc defl (y : List Nat), encryptSave enc defl y [] = .error .missingIdentity) ∧
    errMessage .missingIdentity = "Please enter platform user ID (Steam or Epic)" := by
  refine ⟨by decide, fun dec inf file => ?_, fun enc defl y => ?_, rfl⟩
  · rw [decryptSave, if_pos rfl]
  · rw [encryptSave, if_pos rfl]

/-- C6: PKCS7 unpad inverts pad for every buffer of length 0 through 64
with block size 16. -/
theorem c6_pad_unpad_inverse :
    ∀ buf : List Nat, buf.length ≤ 64 → pkcs7Unpad (pkcs7Pad buf 16) = buf :=
  fun buf _ => pkcs7Unpad_pad buf

/-- C6 witness: the inverse property at a concrete 3-byte buffer. -/
theorem c6_pad_unpad_inverse_witness :
    ([1, 2, 3] : List Nat).length ≤ 64 ∧ pkcs7Unpad (pkcs7Pad [1, 2, 3] 16) = [1, 2, 3] :=
  ⟨by decide, c6_pad_unpad_inverse [1, 2, 3] (by decide)⟩

/-- C7: for a non-empty buffer, unpad reads the last byte `p`; when the
final `p` bytes all equal `p` it truncates by `p` bytes without warning,
otherwise it warns and returns the buffer unmodified. -/
theorem c7_unpad_soft_failure (buf : List Nat) (p : Nat)
    (hlast : buf.getLast? = some p) :
    ((p ≤ buf.length ∧ buf.drop (buf.length - p) = List.replicate p p) →
      pkcs7UnpadW buf = (buf.take (buf.length - p), false)) ∧
    (¬(p ≤ buf.length ∧ buf.drop (buf.length - p) = List.replicate p p) →
      pkcs7UnpadW buf = (buf, true)) := by
  constructor
  · intro hcond
    unfold pkcs7UnpadW
    rw [hlast]
    show (if padLoopOk buf p = true then (buf.take (buf.length - p), false) else (buf, true)) = _
    rw [if_pos ((padLoopOk_iff buf p).mpr hcond)]
  · intro hcond
    unfold pkcs7UnpadW
    rw [hlast]
    show (if padLoopOk buf p = true then (buf.take (buf.length - p), false) else (buf, true)) = _
    rw [if_neg (fun hok => hcond ((padLoopOk_iff buf p).mp hok))]

/-- C7 witness: a valid pad is stripped silently; an invalid one warns and
leaves the buffer unchanged. -/
theorem c7_unpad_soft_failure_witness :
    pkcs7UnpadW [1, 2, 2] = ([1], false) ∧ pkcs7UnpadW [1, 2, 3] = ([1, 2, 3], true) :=
  ⟨(c7_unpad_soft_failure [1, 2, 2] 2 (by decide)).1 (by decide),
   (c7_unpad_soft_failure [1, 2, 3] 3 (by decide)).2 (by decide)⟩

/-- C8: `adler32` agrees with the reference Adler-32 definition on every
buffer, and matches the two published test vectors. -/
theorem c8_adler32_reference :
    (∀ buf : List Nat, adler32 buf = adler32Spec buf) ∧
    adler32 [] = 1 ∧
    adler32 (utf8EncodeStr (strCodeUnits "Wikipedia")) = 0x11E60398 :=
  ⟨adler32_eq_spec, by decide, by decide⟩

/-- C10: `deriveKey` is total and always returns exactly 32 bytes; on the
Steam path the identity contributes exactly 8 bytes, so bytes 8..31 of the
key always equal the base constant. -/
theorem c10_key_shape :
    ∀ userID : List Nat, (deriveKey userID).length = 32 ∧
      (steamMatch userID = true → (deriveKey userID).drop 8 = BASE_KEY.drop 8) := by
  intro userID
  refine ⟨deriveKey_length userID, fun hs => ?_⟩
  have hlen8 : (uidBytes userID).length = 8 := by
    unfold uidBytes
    rw [if_pos hs]
    simp [steamBytes]
  apply List.ext_getElem
  · simp [deriveKey_length, BASE_KEY]
  · intro i h1 h2
    rw [List.getElem_drop, List.getElem_drop]
    have hi32 : 8 + i < 32 := by
      simp only [List.length_drop, deriveKey_length] at h1
      omega
    unfold deriveKey
    rw [List.getElem_map, List.getElem_range]
    rw [if_neg (by omega)]
    have hbk : 8 + i < BASE_KEY.length := by
      have hb : BASE_KEY.length = 32 := by decide
      omega
    rw [List.getD_eq_getElem?_getD, List.getElem?_eq_getElem hbk]
    rfl

/-- C10 witness: the key shape at the sample Steam identity. -/
theorem c10_key_shape_witness :
    (deriveKey (strCodeUnits "76561198012345678")).length = 32 ∧
    (deriveKey (strCodeUnits "76561198012345678")).drop 8 = BASE_KEY.drop 8 :=
  ⟨(c10_key_shape _).1, (c10_key_shape _).2 (by decide)⟩


/-! ## Trim-selection lemmas shared by the decode claims -/

lemma trimLoopTr_first_hit (inflate : List Nat → Option (List Nat)) (pt r : List Nat)
    (hhead : (pt.take (pt.length - 4)).head? = some 0x78)
    (hinf : inflate (pt.take (pt.length - 4)) = some r) :
    trimLoopTr inflate pt [4, 8] = (some (r, 4), [pt.take (pt.length - 4)]) := by
  have hlen : ¬pt.length < 4 := by
    intro hlt
    have h0 : pt.length - 4 = 0 := by omega
    rw [h0] at hhead
    simp at hhead
  rw [trimLoopTr, if_neg hlen]
  have hbeq : ((pt.take (pt.length - 4)).head? == some 0x78) = true := by simp [hhead]
  simp only [hbeq, if_true, hinf]

lemma trimLoop_first_hit (inflate : List Nat → Option (List Nat)) (pt r : List Nat)
    (hhead : (pt.take (pt.length - 4)).head? = some 0x78)
    (hinf : inflate (pt.take (pt.length - 4)) = some r) :
    trimLoop inflate pt [4, 8] = some (r, 4) := by
  rw [← trimLoopTr_fst, trimLoopTr_first_hit inflate pt r hhead hinf]

/-- C2: candidates are tried in the fixed order `[4, 8]`; only candidates
starting with `0x78` are ever passed to `inflate`; when the 4-byte-trim
candidate starts with `0x78` and inflates, the loop accepts it, the 8-byte
candidate is never evaluated (the inflate-call trace is exactly the one
candidate), and decode returns that candidate's inflation (as decoded
text). -/
theorem c2_trim_selection :
    (∀ inflate pt (trims : List Nat),
      trimLoop inflate pt trims = (trimLoopTr inflate pt trims).1) ∧
    (∀ inflate pt (trims : List Nat),
      ∀ b ∈ (trimLoopTr inflate pt trims).2, b.head? = some 0x78) ∧
    (∀ inflate (pt r : List Nat),
      (pt.take (pt.length - 4)).head? = some 0x78 →
      inflate (pt.take (pt.length - 4)) = some r →
      trimLoopTr inflate pt [4, 8] = (some (r, 4), [pt.take (pt.length - 4)])) ∧
    (∀ dec inflate (file userID r : List Nat), userID ≠ [] →
      ((decodePt dec file userID).take ((decodePt dec file userID).length - 4)).head? = some 0x78 →
      inflate ((decodePt dec file userID).take ((decodePt dec file userID).length - 4)) = some r →
      decryptSave dec inflate file userID = .ok (utf8Decode r)) := by
  refine ⟨fun inflate pt trims => (trimLoopTr_fst inflate pt trims).symm,
    trimLoopTr_trace_magic, trimLoopTr_first_hit, ?_⟩
  intro dec inflate file userID r hne hhead hinf
  unfold decryptSave
  rw [if_neg hne, trimLoop_first_hit inflate _ r hhead hinf]

/-- C2 witness: a crafted 5-byte unpadded buffer whose 4-byte-trim
candidate is `[0x78]`; the probe oracle inflates only that buffer. -/
theorem c2_trim_selection_witness :
    trimLoopTr probeInflate [0x78, 0, 0, 0, 0] [4, 8] = (some ([42], 4), [[0x78]]) ∧
    decryptSave idCipher probeInflate [0x78, 0, 0, 0, 0] [49] = .ok (utf8Decode [42]) :=
  ⟨c2_trim_selection.2.2.1 probeInflate [0x78, 0, 0, 0, 0] [42] (by decide) (by decide),
   c2_trim_selection.2.2.2 idCipher probeInflate [0x78, 0, 0, 0, 0] [49] [42]
     (by decide) (by decide) (by decide)⟩

/-- C9: with a non-empty identity, decode fails with `DecompressFailure`
(whose message names the wrong-user-ID/file-format hint) precisely when
neither trim candidate both starts with `0x78` and inflates; when some
candidate succeeds, decode returns the UTF-8 decoding of its inflation. -/
theorem c9_decompress_failure_iff :
    ∀ dec inflate (file userID : List Nat), userID ≠ [] →
      ((decryptSave dec inflate file userID = .error .decompressFailure ↔
        ∀ trim ∈ ([4, 8] : List Nat), ¬candidateHit inflate (decodePt dec file userID) trim) ∧
      (∀ (r : List Nat) (t : Nat),
        trimLoop inflate (decodePt dec file userID) [4, 8] = some (r, t) →
        decryptSave dec inflate file userID = .ok (utf8Decode r)) ∧
      errMessage .decompressFailure = "Zlib decompress failed. Wrong user ID or file format?") := by
  intro dec inflate file userID hne
  have hbody : decryptSave dec inflate file userID =
      (match trimLoop inflate (decodePt dec file userID) [4, 8] with
        | some (inflated, _) => Except.ok (utf8Decode inflated)
        | none => Except.error DecErr.decompressFailure) := by
    unfold decryptSave
    rw [if_neg hne]
  refine ⟨?_, ?_, rfl⟩
  · rw [hbody]
    cases h : trimLoop inflate (decodePt dec file userID) [4, 8] with
    | some p =>
      obtain ⟨r0, t0⟩ := p
      constructor
      · intro hcontra
        exact absurd hcontra (by simp)
      · intro hforall
        exfalso
        have hnone : trimLoop inflate (decodePt dec file userID) [4, 8] = none := by
          rw [trimLoop_eq_none_iff]
          intro trim ht
          rw [tryTrim_eq_none_iff]
          exact hforall trim ht
        rw [h] at hnone
        exact Option.noConfusion hnone
    | none =>
      constructor
      · intro _ trim ht
        have hn := (trimLoop_eq_none_iff inflate _ [4, 8]).mp h trim ht
        rw [tryTrim_eq_none_iff] at hn
        exact hn
      · intro _
        rfl
  · intro r t hsome
    rw [hbody, hsome]

/-- C9 witness: an empty save file with the always-failing inflate oracle
realises the failure branch. -/
theorem c9_decompress_failure_iff_witness :
    (decryptSave idCipher failInflate [] [49] = .error .decompressFailure ↔
      ∀ trim ∈ ([4, 8] : List Nat), ¬candidateHit failInflate (decodePt idCipher [] [49]) trim) ∧
    (∀ (r : List Nat) (t : Nat),
      trimLoop failInflate (decodePt idCipher [] [49]) [4, 8] = some (r, t) →
      decryptSave idCipher failInflate [] [49] = .ok (utf8Decode r)) ∧
    errMessage .decompressFailure = "Zlib decompress failed. Wrong user ID or file format?" :=
  c9_decompress_failure_iff idCipher failInflate [] [49] (by decide)

/-! ## The round trip -/

/-- Decoding an encrypted, padded well-formed container
`comp ++ a4 ++ l4` (compressed payload plus an 8-byte trailer) recovers the
decoded payload, for any cipher pair satisfying the inversion and
length-preservation contracts and any inflate oracle that accepts `comp`
and either rejects `comp ++ a4` or decodes it to the same payload. -/
lemma decryptSave_of_container
    (encryptECB decryptECB : List Nat → List Nat → List Nat)
    (inflate : List Nat → Option (List Nat))
    (comp a4 l4 u userID : List Nat)
    (hne : userID ≠ [])
    (hdec : ∀ k b, decryptECB k (encryptECB k b) = b)
    (hlen : ∀ k b, (encryptECB k b).length = b.length)
    (hhdr : comp.head? = some 0x78)
    (ha4 : a4.length = 4) (hl4 : l4.length = 4)
    (hinfc : inflate comp = some u)
    (hinf4 : inflate (comp ++ a4) = none ∨ inflate (comp ++ a4) = some u) :
    decryptSave decryptECB inflate
      (encryptECB (deriveKey userID) (pkcs7Pad (comp ++ a4 ++ l4) 16)) userID
      = .ok (utf8Decode u) := by
  have hcompne : comp ≠ [] := by
    intro h0
    rw [h0] at hhdr
    simp at hhdr
  have hcomplen : 0 < comp.length := List.length_pos.mpr hcompne
  have hPlen : (comp ++ a4 ++ l4).length = comp.length + 8 := by
    simp [List.length_append, ha4, hl4]
  have hdecpt :
      decodePt decryptECB (encryptECB (deriveKey userID) (pkcs7Pad (comp ++ a4 ++ l4) 16))
        userID = comp ++ a4 ++ l4 := by
    unfold decodePt
    rw [hdec (deriveKey userID) (pkcs7Pad (comp ++ a4 ++ l4) 16),
      hlen (deriveKey userID) (pkcs7Pad (comp ++ a4 ++ l4) 16)]
    have htr : jsTrunc (pkcs7Pad (comp ++ a4 ++ l4) 16) (pkcs7Pad (comp ++ a4 ++ l4) 16).length
        = pkcs7Pad (comp ++ a4 ++ l4) 16 := by
      simp [jsTrunc]
    rw [htr]
    exact pkcs7Unpad_pad (comp ++ a4 ++ l4)
  have hcand4 : (comp ++ a4 ++ l4).take ((comp ++ a4 ++ l4).length - 4) = comp ++ a4 := by
    have h1 : (comp ++ a4 ++ l4).length - 4 = (comp ++ a4).length := by
      simp [List.length_append, ha4, hl4]
    rw [h1]
    exact List.take_left (comp ++ a4) l4
  have hcand8 : (comp ++ a4 ++ l4).take ((comp ++ a4 ++ l4).length - 8) = comp := by
    have h1 : (comp ++ a4 ++ l4).length - 8 = comp.length := by omega
    rw [h1, List.append_assoc]
    exact List.take_left comp (a4 ++ l4)
  have hhead4 : (comp ++ a4).head? = some 0x78 := by
    cases comp with
    | nil => exact absurd rfl hcompne
    | cons x xs =>
      simp only [List.cons_append, List.head?_cons]
      simpa using hhdr
  have hTL : trimLoop inflate (comp ++ a4 ++ l4) [4, 8] = some (u, 4) ∨
      trimLoop inflate (comp ++ a4 ++ l4) [4, 8] = some (u, 8) := by
    rcases hinf4 with hnone | hsome
    · right
      have h4 : tryTrim inflate (comp ++ a4 ++ l4) 4 = none := by
        unfold tryTrim
        rw [if_neg (by omega)]
        show (if ((comp ++ a4 ++ l4).take ((comp ++ a4 ++ l4).length - 4)).head? == some 0x78
          then inflate ((comp ++ a4 ++ l4).take ((comp ++ a4 ++ l4).length - 4)) else none) = none
        rw [hcand4, if_pos (by simp [hhead4])]
        exact hnone
      have h8 : tryTrim inflate (comp ++ a4 ++ l4) 8 = some u := by
        unfold tryTrim
        rw [if_neg (by omega)]
        show (if ((comp ++ a4 ++ l4).take ((comp ++ a4 ++ l4).length - 8)).head? == some 0x78
          then inflate ((comp ++ a4 ++ l4).take ((comp ++ a4 ++ l4).length - 8)) else none) = some u
        rw [hcand8, if_pos (by simp [hhdr])]
        exact hinfc
      simp only [trimLoop, h4, h8]
    · left
      have h4 : tryTrim inflate (comp ++ a4 ++ l4) 4 = some u := by
        unfold tryTrim
        rw [if_neg (by omega)]
        show (if ((comp ++ a4 ++ l4).take ((comp ++ a4 ++ l4).length - 4)).head? == some 0x78
          then inflate ((comp ++ a4 ++ l4).take ((comp ++ a4 ++ l4).length - 4)) else none) = some u
        rw [hcand4, if_pos (by simp [hhead4])]
        exact hsome
      simp only [trimLoop, h4]
  unfold decryptSave
  rw [if_neg hne, hdecpt]
  rcases hTL with hTL | hTL <;> rw [hTL]


/-- C1: for the sample identity and text, whenever the external primitives
satisfy their interface contracts (the cipher pair is inverse and
length-preserving; inflate inverts deflate on the payload, deflate output
carries the `0x78` zlib header, and inflate on the payload with trailing
trailer bytes either fails or still yields the payload),
`decode(encode(text, id), id) = text` and the unpadded cipher input ends in
the adler32/length trailer. -/
theorem c1_round_trip_sample
    (encryptECB decryptECB : List Nat → List Nat → List Nat)
    (deflate : List Nat → Nat → List Nat)
    (inflate : List Nat → Option (List Nat))
    (hdec : ∀ k b, decryptECB k (encryptECB k b) = b)
    (hlen : ∀ k b, (encryptECB k b).length = b.length)
    (hinf : inflate (deflate c1U 9) = some c1U)
    (hhdr : (deflate c1U 9).head? = some 0x78)
    (htrail : ∀ extra : List Nat, extra ≠ [] →
      inflate (deflate c1U 9 ++ extra) = none ∨
      inflate (deflate c1U 9 ++ extra) = some c1U) :
    c1Conclusion encryptECB decryptECB deflate inflate := by
  unfold c1Conclusion
  refine ⟨?_, ?_, ?_⟩
  · unfold encryptSave
    rw [if_neg (show ¬c1Id = [] by decide)]
    rfl
  · have h := decryptSave_of_container encryptECB decryptECB inflate
      (deflate c1U 9) (le32 (adler32 c1U)) (le32 c1U.length) c1U c1Id
      (by decide) hdec hlen hhdr rfl rfl hinf
      (htrail (le32 (adler32 c1U)) (by simp [le32]))
    rw [h]
    have hu : utf8Decode c1U = c1Text := by decide
    rw [hu]
  · rw [pkcs7Unpad_pad]
    have h1 : (deflate c1U 9 ++ le32 (adler32 c1U) ++ le32 c1U.length).length - 8
        = (deflate c1U 9).length := by
      simp [List.length_append, le32]
    rw [h1, List.append_assoc]
    exact List.drop_left (deflate c1U 9) (le32 (adler32 c1U) ++ le32 c1U.length)

/-- C1 witness: the round trip realised with the identity cipher and the
length-prefixing deflate/inflate oracle pair. -/
theorem c1_round_trip_sample_witness :
    c1Conclusion idCipher idCipher vecDeflate vecInflate := by
  apply c1_round_trip_sample idCipher idCipher vecDeflate vecInflate
  · intro k b
    rfl
  · intro k b
    rfl
  · decide
  · decide
  · intro extra hne
    right
    have hU : c1U = [104, 101, 108, 108, 111, 58, 32, 119, 111, 114, 108, 100, 10] := by decide
    rw [hU]
    show vecInflate (120 :: 13 :: 0 :: 0 :: 0 ::
      ([104, 101, 108, 108, 111, 58, 32, 119, 111, 114, 108, 100, 10] ++ extra)) =
      some [104, 101, 108, 108, 111, 58, 32, 119, 111, 114, 108, 100, 10]
    simp only [vecInflate, if_true]
    norm_num [List.length_append]

end SaveCodec

